import Mathlib

/-!
Shallow embedding of the Cloud Spanner statement module
(src/spanner/src/statement.rs): the Statement parameter container, the
ToKind and ToStruct marshalling traits and their implementations for the
native shapes the module supports.

Representation choices, recorded once here:
* prost Value is a one-field record holding an optional Kind; it is
  embedded directly as Option Kind (the source always builds the Some
  form).
* BTreeMap String V is embedded as an association list whose keys are
  kept strictly sorted by btreeInsert; HashMap String V is embedded as an
  association list manipulated by hashInsert (replace in place or append),
  which realises exactly the observable lookup and key-set behaviour of a
  hash map.
* Rust i64 is embedded as Int (range side conditions appear in theorems
  where they matter); f64 values are carried verbatim and never computed
  with, so they are embedded as an opaque bit-pattern record F64.
* chrono NaiveDate and NaiveDateTime are embedded as records of their
  calendar fields; from_utc_datetime reinterprets the fields as UTC
  without changing them, and to_rfc3339_opts with SecondsFormat Nanos and
  use_z set renders nine fractional digits followed by the Z suffix.
  Fixed-width zero-padded decimal rendering is embedded digit by digit in
  zeroPad.
* The byte-slice and Decimal implementations delegate to external base64
  and decimal formatting crates that the specification treats as opaque
  converters; no claim concerns them and they are not embedded.
-/

namespace Spanner

/-- IEEE-754 double bit pattern. The marshaller stores floats verbatim as
NumberValue and never computes with them, so only an opaque carrier is
needed. -/
structure F64 where
  bits : Nat
deriving DecidableEq

/-- TypeCode enum of google.spanner.v1. -/
inductive TypeCode where
  | typeCodeUnspecified
  | bool
  | int64
  | float64
  | timestamp
  | date
  | string
  | bytes
  | array
  | struct
  | numeric
deriving DecidableEq

/-- The into i32 conversion of the TypeCode proto enum. -/
def TypeCode.into : TypeCode → Int
  | .typeCodeUnspecified => 0
  | .bool => 1
  | .int64 => 2
  | .float64 => 3
  | .timestamp => 4
  | .date => 5
  | .string => 6
  | .bytes => 7
  | .array => 8
  | .struct => 9
  | .numeric => 10

/-- The Type proto message: code, array_element_type, struct_type. The
StructType and Field messages are flattened: struct_type carries the field
list, each field being a name paired with an optional element Ty. -/
inductive Ty where
  | mk (code : Int) (array_element_type : Option Ty)
      (struct_type : Option (List (String × Option Ty)))

def Ty.code : Ty → Int
  | .mk c _ _ => c

def Ty.array_element_type : Ty → Option Ty
  | .mk _ a _ => a

def Ty.struct_type : Ty → Option (List (String × Option Ty))
  | .mk _ _ s => s

/-- The prost value Kind union. A struct value carries its BTreeMap of
fields as a name-sorted association list of optional Kinds (the Value
wrapper being Option Kind); a list value carries its elements likewise. -/
inductive Kind where
  | nullValue (v : Int)
  | numberValue (v : F64)
  | stringValue (v : String)
  | boolValue (v : Bool)
  | structValue (fields : List (String × Option Kind))
  | listValue (values : List (Option Kind))

/-- Lookup in an association list, first match wins. -/
def assocLookup {α : Type} (k : String) : List (String × α) → Option α
  | [] => none
  | e :: rest => if e.1 = k then some e.2 else assocLookup k rest

/-- BTreeMap insert on a key-sorted association list: place the new
binding at its ordered position, replacing an existing binding of the same
key. -/
def btreeInsert {α : Type} (k : String) (v : α) :
    List (String × α) → List (String × α)
  | [] => [(k, v)]
  | e :: rest =>
    if k < e.1 then (k, v) :: e :: rest
    else if k = e.1 then (k, v) :: rest
    else e :: btreeInsert k v rest

/-- HashMap insert on an association list: replace an existing binding of
the key in place, otherwise append. Only lookup and key-set behaviour of
the hash map is observable. -/
def hashInsert {α : Type} (k : String) (v : α) :
    List (String × α) → List (String × α)
  | [] => [(k, v)]
  | e :: rest =>
    if k = e.1 then (k, v) :: rest
    else e :: hashInsert k v rest

/-- The Statement record: sql text, params (BTreeMap String Value) and
param_types (HashMap String Type). -/
structure Statement where
  sql : String
  params : List (String × Option Kind)
  param_types : List (String × Ty)

/-- Statement.new: the given sql and empty parameter maps. -/
def Statement.new (sql : String) : Statement :=
  { sql := sql, params := [], param_types := [] }

/-- The ToKind trait: a value conversion to_kind and an associated
value-free type function get_type. -/
class ToKind (α : Type) where
  to_kind : α → Kind
  get_type : Ty

/-- Statement.add_param: store the get_type of the shape under the name in
param_types and the to_kind of the value, wrapped as a Value, under the
name in params. -/
def Statement.add_param {α : Type} [ToKind α] (s : Statement)
    (name : String) (value : α) : Statement :=
  { s with
    param_types := hashInsert name (@ToKind.get_type α _) s.param_types
    params := btreeInsert name (some (ToKind.to_kind value)) s.params }

/-- single_type: a Type with the given code and no array or struct
component. -/
def single_type (code : TypeCode) : Ty :=
  Ty.mk code.into none none

instance : ToKind String where
  to_kind s := Kind.stringValue s
  get_type := single_type TypeCode.string

instance : ToKind Int where
  to_kind n := ToKind.to_kind (toString n)
  get_type := single_type TypeCode.int64

instance : ToKind F64 where
  to_kind x := Kind.numberValue x
  get_type := single_type TypeCode.float64

instance : ToKind Bool where
  to_kind b := Kind.boolValue b
  get_type := single_type TypeCode.bool

/-- Fixed-width zero-padded decimal rendering, digit by digit, most
significant first: the form a zero-padded numeric format specifier prints
for arguments below 10 to the w. -/
def zeroPad (w : Nat) (n : Nat) : String :=
  String.mk ((List.range w).map (fun i => Nat.digitChar (n / 10 ^ (w - 1 - i) % 10)))

/-- chrono NaiveDate: calendar fields only. -/
structure NaiveDate where
  year : Nat
  month : Nat
  day : Nat

instance : ToKind NaiveDate where
  to_kind d :=
    ToKind.to_kind (zeroPad 4 d.year ++ "-" ++ zeroPad 2 d.month ++ "-" ++ zeroPad 2 d.day)
  get_type := single_type TypeCode.date

/-- chrono NaiveDateTime: calendar and clock fields, sub-second part in
nanoseconds. -/
structure NaiveDateTime where
  year : Nat
  month : Nat
  day : Nat
  hour : Nat
  minute : Nat
  second : Nat
  nanosecond : Nat

/-- Utc.from_utc_datetime reinterprets the naive fields as UTC without
changing any of them. -/
def from_utc_datetime (d : NaiveDateTime) : NaiveDateTime := d

/-- The date-and-clock body of the RFC 3339 rendering, with the nine
nanosecond digits that SecondsFormat Nanos always prints. -/
def rfc3339Body (d : NaiveDateTime) : String :=
  zeroPad 4 d.year ++ "-" ++ zeroPad 2 d.month ++ "-" ++ zeroPad 2 d.day ++ "T" ++
  zeroPad 2 d.hour ++ ":" ++ zeroPad 2 d.minute ++ ":" ++ zeroPad 2 d.second ++ "." ++
  zeroPad 9 d.nanosecond

/-- to_rfc3339_opts with SecondsFormat Nanos and use_z set, on a time of
zero offset: the body followed by the Z suffix, never a numeric offset. -/
def toRfc3339NanosZ (d : NaiveDateTime) : String :=
  rfc3339Body d ++ "Z"

instance : ToKind NaiveDateTime where
  to_kind d := ToKind.to_kind (toRfc3339NanosZ (from_utc_datetime d))
  get_type := single_type TypeCode.timestamp

/-- The commit-timestamp sentinel marker from the value module of the same
crate: an opaque unit marker whose marshalling is entirely in the reviewed
file. -/
structure CommitTimestamp where

instance : ToKind CommitTimestamp where
  to_kind _ := ToKind.to_kind "spanner.commit_timestamp()"
  get_type := single_type TypeCode.timestamp

instance {α : Type} [ToKind α] : ToKind (Option α) where
  to_kind v :=
    match v with
    | some vv => ToKind.to_kind vv
    | none => Kind.nullValue 0
  get_type := @ToKind.get_type α _

instance {α : Type} [ToKind α] : ToKind (List α) where
  to_kind l := Kind.listValue (l.map (fun x => some (ToKind.to_kind x)))
  get_type := Ty.mk TypeCode.array.into (some (@ToKind.get_type α _)) none

/-- The Kinds alias: an enumeration of named kinds. -/
abbrev Kinds := List (String × Kind)

/-- The Types alias: an enumeration of named types. -/
abbrev Types := List (String × Ty)

/-- The ToStruct trait: a value enumeration to_kinds and a declared-shape
enumeration get_types. -/
class ToStruct (γ : Type) where
  to_kinds : γ → Kinds
  get_types : Types

/-- The field map a ToStruct to_kind builds: each enumerated kind wrapped
as a Value and inserted into an initially empty BTreeMap. -/
def structFieldsOfKinds (ks : Kinds) : List (String × Option Kind) :=
  ks.foldl (fun fields e => btreeInsert e.1 (some e.2) fields) []

/-- The struct Type a ToStruct get_type builds: code Struct, with one
Field per enumerated entry of get_types, in enumeration order. -/
def structTypeOfTypes (ts : Types) : Ty :=
  Ty.mk TypeCode.struct.into none (some (ts.map (fun t => (t.1, some t.2))))

instance (priority := low) {γ : Type} [ToStruct γ] : ToKind γ where
  to_kind x := Kind.structValue (structFieldsOfKinds (ToStruct.to_kinds x))
  get_type := structTypeOfTypes (@ToStruct.get_types γ _)

/-- Field names of a struct Kind, in stored order; empty for any other
Kind. -/
def kindFieldNames : Kind → List String
  | .structValue fields => fields.map Prod.fst
  | _ => []

/-- Field names of a struct Ty, in stored order; empty when there is no
struct component. -/
def tyFieldNames : Ty → List String
  | .mk _ _ (some fs) => fs.map Prod.fst
  | .mk _ _ none => []

/-- The last kind bound to a name in an enumeration, if any. -/
def lastBinding (n : String) : Kinds → Option Kind
  | [] => none
  | e :: rest =>
    match lastBinding n rest with
    | some r => some r
    | none => if e.1 = n then some e.2 else none

/-- One add_param call at the level of the already-marshalled kind and
type: exactly the two inserts add_param performs. -/
def addParamKind (s : Statement) (name : String) (k : Kind) (t : Ty) : Statement :=
  { s with
    param_types := hashInsert name t s.param_types
    params := btreeInsert name (some k) s.params }

/-- A finite sequence of add_param calls, each given by its name and the
kind and type its shape marshals to. -/
def applyParams (s : Statement) : List (String × Kind × Ty) → Statement
  | [] => s
  | op :: rest => applyParams (addParamKind s op.1 op.2.1 op.2.2) rest

/-- The key invariant of a Statement: params keys strictly sorted (the
BTreeMap shape), param_types keys without repetition (the HashMap shape),
and the two key sets equal. -/
def StatementInv (s : Statement) : Prop :=
  (s.params.map Prod.fst).Pairwise (· < ·)
  ∧ (s.param_types.map Prod.fst).Nodup
  ∧ ∀ m, m ∈ s.params.map Prod.fst ↔ m ∈ s.param_types.map Prod.fst

/-- A composite shape whose declared field order is not sorted by name:
fields b then a. -/
structure PairBA where
  b : Bool
  a : Bool

instance : ToStruct PairBA where
  to_kinds x := [("b", ToKind.to_kind x.b), ("a", ToKind.to_kind x.a)]
  get_types := [("b", @ToKind.get_type Bool _), ("a", @ToKind.get_type Bool _)]

/-- A composite shape whose declared field order is sorted by name: fields
x then y, an integer and a string. -/
structure PairXY where
  x : Int
  y : String

instance : ToStruct PairXY where
  to_kinds v := [("x", ToKind.to_kind v.x), ("y", ToKind.to_kind v.y)]
  get_types := [("x", @ToKind.get_type Int _), ("y", @ToKind.get_type String _)]

/-- A composite shape that enumerates the same field name twice. -/
structure Dup where
  first : Int
  second : Int

instance : ToStruct Dup where
  to_kinds v := [("a", ToKind.to_kind v.first), ("a", ToKind.to_kind v.second)]
  get_types := [("a", @ToKind.get_type Int _), ("a", @ToKind.get_type Int _)]

/-! Lemmas about the two map-insert operations. -/

theorem assocLookup_btreeInsert_self {α : Type} (k : String) (v : α)
    (l : List (String × α)) :
    assocLookup k (btreeInsert k v l) = some v := by
  induction l with
  | nil => simp [btreeInsert, assocLookup]
  | cons e rest ih =>
    obtain ⟨k', v'⟩ := e
    by_cases h1 : k < k'
    · simp [btreeInsert, h1, assocLookup]
    · by_cases h2 : k = k'
      · simp [btreeInsert, h1, h2, assocLookup]
      · have h3 : ¬ k' = k := fun hh => h2 hh.symm
        simp [btreeInsert, h1, h2, assocLookup, h3, ih]

theorem assocLookup_btreeInsert_ne {α : Type} (m k : String) (hm : m ≠ k) (v : α)
    (l : List (String × α)) :
    assocLookup m (btreeInsert k v l) = assocLookup m l := by
  have hk : ¬ k = m := fun h => hm h.symm
  induction l with
  | nil => simp [btreeInsert, assocLookup, hk]
  | cons e rest ih =>
    obtain ⟨k', v'⟩ := e
    by_cases h1 : k < k'
    · simp [btreeInsert, h1, assocLookup, hk]
    · by_cases h2 : k = k'
      · have he : ¬ k' = m := fun h => hm (h.symm.trans h2.symm)
        simp [btreeInsert, h1, h2, assocLookup, hk, he]
      · simp [btreeInsert, h1, h2, assocLookup, ih]

theorem mem_keys_btreeInsert {α : Type} (m k : String) (v : α)
    (l : List (String × α)) :
    m ∈ (btreeInsert k v l).map Prod.fst ↔ m = k ∨ m ∈ l.map Prod.fst := by
  induction l with
  | nil => simp [btreeInsert]
  | cons e rest ih =>
    obtain ⟨k', v'⟩ := e
    by_cases h1 : k < k'
    · simp [btreeInsert, h1]
    · by_cases h2 : k = k'
      · subst h2
        simp [btreeInsert, h1]
      · simp [btreeInsert, h1, h2, ih]
        tauto

theorem pairwise_keys_btreeInsert {α : Type} (k : String) (v : α)
    (l : List (String × α)) (hs : (l.map Prod.fst).Pairwise (· < ·)) :
    ((btreeInsert k v l).map Prod.fst).Pairwise (· < ·) := by
  induction l with
  | nil => simp [btreeInsert]
  | cons e rest ih =>
    obtain ⟨k', v'⟩ := e
    rw [List.map_cons, List.pairwise_cons] at hs
    obtain ⟨h1, h2⟩ := hs
    by_cases hlt : k < k'
    · rw [btreeInsert]
      simp only [if_pos hlt, List.map_cons, List.pairwise_cons]
      refine ⟨?_, h1, h2⟩
      intro b hb
      rcases List.mem_cons.mp hb with rfl | hb
      · exact hlt
      · exact lt_trans hlt (h1 b hb)
    · by_cases heq : k = k'
      · subst heq
        rw [btreeInsert, if_neg hlt, if_pos rfl, List.map_cons, List.pairwise_cons]
        exact ⟨h1, h2⟩
      · have hgt : k' < k := by
          rcases lt_trichotomy k k' with h | h | h
          · exact absurd h hlt
          · exact absurd h heq
          · exact h
        rw [btreeInsert]
        simp only [if_neg hlt, if_neg heq, List.map_cons, List.pairwise_cons]
        refine ⟨?_, ih h2⟩
        intro b hb
        rcases (mem_keys_btreeInsert b k v rest).mp hb with rfl | hb
        · exact hgt
        · exact h1 b hb

theorem assocLookup_hashInsert_self {α : Type} (k : String) (v : α)
    (l : List (String × α)) :
    assocLookup k (hashInsert k v l) = some v := by
  induction l with
  | nil => simp [hashInsert, assocLookup]
  | cons e rest ih =>
    obtain ⟨k', v'⟩ := e
    by_cases h1 : k = k'
    · simp [hashInsert, h1, assocLookup]
    · have h3 : ¬ k' = k := fun hh => h1 hh.symm
      simp [hashInsert, h1, assocLookup, h3, ih]

theorem assocLookup_hashInsert_ne {α : Type} (m k : String) (hm : m ≠ k) (v : α)
    (l : List (String × α)) :
    assocLookup m (hashInsert k v l) = assocLookup m l := by
  have hk : ¬ k = m := fun h => hm h.symm
  induction l with
  | nil => simp [hashInsert, assocLookup, hk]
  | cons e rest ih =>
    obtain ⟨k', v'⟩ := e
    by_cases h1 : k = k'
    · have he : ¬ k' = m := fun h => hm (h.symm.trans h1.symm)
      simp [hashInsert, h1, assocLookup, hk, he]
    · simp [hashInsert, h1, assocLookup, ih]

theorem mem_keys_hashInsert {α : Type} (m k : String) (v : α)
    (l : List (String × α)) :
    m ∈ (hashInsert k v l).map Prod.fst ↔ m = k ∨ m ∈ l.map Prod.fst := by
  induction l with
  | nil => simp [hashInsert]
  | cons e rest ih =>
    obtain ⟨k', v'⟩ := e
    by_cases h1 : k = k'
    · subst h1
      simp [hashInsert]
    · simp [hashInsert, h1, ih]
      tauto


theorem nodup_keys_hashInsert {α : Type} (k : String) (v : α)
    (l : List (String × α)) (hn : (l.map Prod.fst).Nodup) :
    ((hashInsert k v l).map Prod.fst).Nodup := by
  induction l with
  | nil => simp [hashInsert]
  | cons e rest ih =>
    obtain ⟨k', v'⟩ := e
    rw [List.map_cons, List.nodup_cons] at hn
    obtain ⟨h1, h2⟩ := hn
    by_cases heq : k = k'
    · subst heq
      rw [hashInsert, if_pos rfl, List.map_cons, List.nodup_cons]
      exact ⟨h1, h2⟩
    · rw [hashInsert]
      simp only [if_neg heq, List.map_cons, List.nodup_cons]
      refine ⟨?_, ih h2⟩
      intro hb
      rcases (mem_keys_hashInsert k' k v rest).mp hb with rfl | hb
      · exact heq rfl
      · exact h1 hb

theorem nodup_of_pairwise_lt {l : List String} (h : l.Pairwise (· < ·)) :
    l.Nodup :=
  h.imp (fun hab => ne_of_lt hab)

/-! Lemmas about Statement construction. -/

theorem add_param_eq_addParamKind {α : Type} [ToKind α] (s : Statement)
    (name : String) (v : α) :
    s.add_param name v
      = addParamKind s name (ToKind.to_kind v) (@ToKind.get_type α _) := rfl

theorem statementInv_new (sql : String) : StatementInv (Statement.new sql) := by
  refine ⟨?_, ?_, ?_⟩ <;> simp [Statement.new, StatementInv]

theorem statementInv_addParamKind (s : Statement) (n : String) (k : Kind) (t : Ty)
    (h : StatementInv s) : StatementInv (addParamKind s n k t) := by
  obtain ⟨h1, h2, h3⟩ := h
  refine ⟨pairwise_keys_btreeInsert _ _ _ h1, nodup_keys_hashInsert _ _ _ h2, ?_⟩
  intro m
  simp only [addParamKind]
  rw [mem_keys_btreeInsert, mem_keys_hashInsert, h3 m]

theorem statementInv_applyParams (ops : List (String × Kind × Ty)) :
    ∀ s : Statement, StatementInv s → StatementInv (applyParams s ops) := by
  induction ops with
  | nil => intro s h; exact h
  | cons op rest ih =>
    intro s h
    exact ih _ (statementInv_addParamKind _ _ _ _ h)

theorem mem_keys_applyParams_params (m : String) (ops : List (String × Kind × Ty)) :
    ∀ s : Statement,
      m ∈ (applyParams s ops).params.map Prod.fst ↔
        m ∈ ops.map (fun e => e.1) ∨ m ∈ s.params.map Prod.fst := by
  induction ops with
  | nil => intro s; simp [applyParams]
  | cons op rest ih =>
    intro s
    simp only [applyParams]
    rw [ih]
    simp only [addParamKind]
    rw [mem_keys_btreeInsert]
    simp only [List.map_cons, List.mem_cons]
    tauto

theorem mem_keys_applyParams_param_types (m : String)
    (ops : List (String × Kind × Ty)) :
    ∀ s : Statement,
      m ∈ (applyParams s ops).param_types.map Prod.fst ↔
        m ∈ ops.map (fun e => e.1) ∨ m ∈ s.param_types.map Prod.fst := by
  induction ops with
  | nil => intro s; simp [applyParams]
  | cons op rest ih =>
    intro s
    simp only [applyParams]
    rw [ih]
    simp only [addParamKind]
    rw [mem_keys_hashInsert]
    simp only [List.map_cons, List.mem_cons]
    tauto

theorem count_keys_eq_one_of_inv (s : Statement) (h : StatementInv s) (n : String)
    (hm : n ∈ s.params.map Prod.fst) :
    (s.params.map Prod.fst).count n = 1
    ∧ (s.param_types.map Prod.fst).count n = 1 := by
  obtain ⟨h1, h2, h3⟩ := h
  exact ⟨List.count_eq_one_of_mem (nodup_of_pairwise_lt h1) hm,
         List.count_eq_one_of_mem h2 ((h3 n).mp hm)⟩

/-! Lemmas about the struct field map built by the ToStruct blanket
implementation. -/

theorem assocLookup_foldl_btreeInsert (n : String) (ks : Kinds) :
    ∀ acc : List (String × Option Kind),
      assocLookup n (ks.foldl (fun fields e => btreeInsert e.1 (some e.2) fields) acc)
        = match lastBinding n ks with
          | some v => some (some v)
          | none => assocLookup n acc := by
  induction ks with
  | nil => intro acc; simp [lastBinding]
  | cons e rest ih =>
    intro acc
    rw [List.foldl_cons, ih]
    cases hl : lastBinding n rest with
    | some r => simp [lastBinding, hl]
    | none =>
      by_cases he : e.1 = n
      · subst he
        simp [lastBinding, hl, assocLookup_btreeInsert_self]
      · simp [lastBinding, hl, he,
          assocLookup_btreeInsert_ne _ _ (fun hh => he hh.symm)]

theorem assocLookup_structFieldsOfKinds (n : String) (ks : Kinds) :
    assocLookup n (structFieldsOfKinds ks) = (lastBinding n ks).map some := by
  rw [structFieldsOfKinds, assocLookup_foldl_btreeInsert]
  cases lastBinding n ks <;> simp [assocLookup]

theorem mem_keys_foldl_btreeInsert (m : String) (ks : Kinds) :
    ∀ acc : List (String × Option Kind),
      m ∈ ((ks.foldl (fun fields e => btreeInsert e.1 (some e.2) fields) acc).map Prod.fst)
        ↔ m ∈ ks.map Prod.fst ∨ m ∈ acc.map Prod.fst := by
  induction ks with
  | nil => intro acc; simp
  | cons e rest ih =>
    intro acc
    rw [List.foldl_cons, ih, mem_keys_btreeInsert]
    simp only [List.map_cons, List.mem_cons]
    tauto

theorem mem_keys_structFieldsOfKinds (m : String) (ks : Kinds) :
    m ∈ (structFieldsOfKinds ks).map Prod.fst ↔ m ∈ ks.map Prod.fst := by
  rw [structFieldsOfKinds, mem_keys_foldl_btreeInsert]
  simp

theorem pairwise_keys_foldl_btreeInsert (ks : Kinds) :
    ∀ acc : List (String × Option Kind),
      (acc.map Prod.fst).Pairwise (· < ·) →
      (((ks.foldl (fun fields e => btreeInsert e.1 (some e.2) fields) acc).map Prod.fst).Pairwise (· < ·)) := by
  induction ks with
  | nil => intro acc h; exact h
  | cons e rest ih =>
    intro acc h
    rw [List.foldl_cons]
    exact ih _ (pairwise_keys_btreeInsert _ _ _ h)

theorem pairwise_keys_structFieldsOfKinds (ks : Kinds) :
    ((structFieldsOfKinds ks).map Prod.fst).Pairwise (· < ·) := by
  rw [structFieldsOfKinds]
  exact pairwise_keys_foldl_btreeInsert ks [] (by simp)

theorem btreeInsert_append_of_lt {α : Type} (k : String) (v : α)
    (l : List (String × α)) (h : ∀ a ∈ l.map Prod.fst, a < k) :
    btreeInsert k v l = l ++ [(k, v)] := by
  induction l with
  | nil => simp [btreeInsert]
  | cons e rest ih =>
    have he : e.1 < k := h e.1 (by simp)
    have h1 : ¬ k < e.1 := lt_asymm he
    have h2 : ¬ k = e.1 := ne_of_gt he
    rw [btreeInsert, if_neg h1, if_neg h2,
        ih (fun a ha => h a (by simp [ha])), List.cons_append]

theorem foldl_btreeInsert_sorted_append (ks : Kinds) :
    ∀ acc : List (String × Option Kind),
      ((acc.map Prod.fst ++ ks.map Prod.fst).Pairwise (· < ·)) →
      ks.foldl (fun fields e => btreeInsert e.1 (some e.2) fields) acc
        = acc ++ ks.map (fun e => (e.1, some e.2)) := by
  induction ks with
  | nil => intro acc h; simp
  | cons e rest ih =>
    intro acc h
    rw [List.foldl_cons]
    have hlt : ∀ a ∈ acc.map Prod.fst, a < e.1 := by
      rw [List.pairwise_append] at h
      intro a ha
      exact h.2.2 a ha e.1 (by simp)
    rw [btreeInsert_append_of_lt _ _ _ hlt]
    rw [ih (acc ++ [(e.1, some e.2)]) ?_]
    · simp
    · rw [List.map_append]
      have : (acc.map Prod.fst ++ [e.1]) ++ rest.map Prod.fst
          = acc.map Prod.fst ++ (e.1 :: rest.map Prod.fst) := by
        rw [List.append_assoc, List.singleton_append]
      simpa [this] using h

theorem structFieldsOfKinds_of_sorted (ks : Kinds)
    (h : (ks.map Prod.fst).Pairwise (· < ·)) :
    structFieldsOfKinds ks = ks.map (fun e => (e.1, some e.2)) := by
  have := foldl_btreeInsert_sorted_append ks [] (by simpa using h)
  simpa [structFieldsOfKinds] using this

/-! Claim theorems. -/

/-- Claim C4: for every inner shape implementing ToKind, the Option
instance reports the inner get_type even for the absent value, marshals
None to the null Kind, and marshals Some v exactly as v. -/
theorem option_to_kind_get_type (α : Type) [ToKind α] (v : α) :
    @ToKind.get_type (Option α) _ = @ToKind.get_type α _
    ∧ ToKind.to_kind (none : Option α) = Kind.nullValue 0
    ∧ ToKind.to_kind (some v) = ToKind.to_kind v :=
  ⟨rfl, rfl, rfl⟩

/-- Claim C5: the Vec implementation marshals element by element in input
order for every length, and pairs the Array type wrapping the element
shape type, computed from the shape alone; the empty vector yields the
empty list value with that same type. -/
theorem vec_to_kind_get_type (α : Type) [ToKind α] (l : List α) :
    ToKind.to_kind l = Kind.listValue (l.map (fun x => some (ToKind.to_kind x)))
    ∧ (∃ vs, ToKind.to_kind l = Kind.listValue vs
        ∧ vs.length = l.length
        ∧ ∀ i : Nat, vs[i]? = (l[i]?).map (fun x => some (ToKind.to_kind x)))
    ∧ @ToKind.get_type (List α) _
        = Ty.mk TypeCode.array.into (some (@ToKind.get_type α _)) none
    ∧ ToKind.to_kind ([] : List α) = Kind.listValue [] := by
  refine ⟨rfl, ⟨l.map (fun x => some (ToKind.to_kind x)), rfl, by simp, ?_⟩, rfl, rfl⟩
  intro i
  simp

/-- Claim C6: a 64-bit integer marshals to the string value holding its
decimal textual form, with type code Int64; in particular 42 marshals to
the string 42. -/
theorem i64_to_kind_get_type (n : Int) (_h1 : -(2 ^ 63) ≤ n) (_h2 : n < 2 ^ 63) :
    ToKind.to_kind n = Kind.stringValue (toString n)
    ∧ @ToKind.get_type Int _ = single_type TypeCode.int64
    ∧ ToKind.to_kind (42 : Int) = Kind.stringValue "42" := by
  refine ⟨rfl, rfl, ?_⟩
  show Kind.stringValue (toString (42 : Int)) = Kind.stringValue "42"
  exact congrArg Kind.stringValue (by decide)

/-- Claim C6 witness: the bounds hold at 42 and the theorem applies
there. -/
theorem i64_to_kind_get_type_witness :
    (-(2 ^ 63) ≤ (42 : Int) ∧ (42 : Int) < 2 ^ 63)
    ∧ ToKind.to_kind (42 : Int) = Kind.stringValue (toString (42 : Int))
    ∧ @ToKind.get_type Int _ = single_type TypeCode.int64
    ∧ ToKind.to_kind (42 : Int) = Kind.stringValue "42" :=
  ⟨⟨by decide, by decide⟩, i64_to_kind_get_type 42 (by decide) (by decide)⟩

/-- Claim C7: a NaiveDateTime marshals to the string of its fields
reinterpreted as UTC unchanged, rendered in RFC 3339 form with exactly
nine fractional digits and the Z suffix rather than a numeric offset, with
type code Timestamp; concretely for 2021-01-02 03:04:05 and 6
nanoseconds. -/
theorem naive_date_time_to_kind_get_type (d : NaiveDateTime) :
    ToKind.to_kind d = Kind.stringValue (toRfc3339NanosZ (from_utc_datetime d))
    ∧ from_utc_datetime d = d
    ∧ toRfc3339NanosZ d = rfc3339Body d ++ "Z"
    ∧ (zeroPad 9 d.nanosecond).length = 9
    ∧ @ToKind.get_type NaiveDateTime _ = single_type TypeCode.timestamp
    ∧ ToKind.to_kind (⟨2021, 1, 2, 3, 4, 5, 6⟩ : NaiveDateTime)
        = Kind.stringValue "2021-01-02T03:04:05.000000006Z" := by
  refine ⟨rfl, rfl, rfl, ?_, rfl, ?_⟩
  · show ((List.range 9).map _).length = 9
    simp
  · show Kind.stringValue (toRfc3339NanosZ _) = _
    exact congrArg Kind.stringValue (by decide)

/-- Claim C8: get_type is an associated function taking no value, so the
type stored by add_param is independent of the bound value; i64, f64 and
bool always map to the Int64, Float64 and Bool type codes. -/
theorem get_type_value_independent (α : Type) [ToKind α] (s : Statement)
    (n : String) (x y : α) :
    (s.add_param n x).param_types = (s.add_param n y).param_types
    ∧ @ToKind.get_type Int _ = single_type TypeCode.int64
    ∧ @ToKind.get_type F64 _ = single_type TypeCode.float64
    ∧ @ToKind.get_type Bool _ = single_type TypeCode.bool :=
  ⟨rfl, rfl, rfl, rfl⟩

/-- Claim C9: add_param leaves the sql text unchanged and leaves every
parameter entry other than the named one untouched in both maps. -/
theorem add_param_frame (α : Type) [ToKind α] (s : Statement) (n : String)
    (v : α) (m : String) (h : m ≠ n) :
    (s.add_param n v).sql = s.sql
    ∧ assocLookup m (s.add_param n v).params = assocLookup m s.params
    ∧ assocLookup m (s.add_param n v).param_types
        = assocLookup m s.param_types := by
  refine ⟨rfl, ?_, ?_⟩
  · simp only [Statement.add_param]
    exact assocLookup_btreeInsert_ne m n h _ _
  · simp only [Statement.add_param]
    exact assocLookup_hashInsert_ne m n h _ _

/-- Claim C9 witness: the frame condition applied at concrete inputs. -/
theorem add_param_frame_witness :
    ("b" : String) ≠ "a"
    ∧ (((Statement.new "SELECT @a, @b").add_param "b" true).add_param "a" false).sql
        = ((Statement.new "SELECT @a, @b").add_param "b" true).sql
    ∧ assocLookup "b"
        (((Statement.new "SELECT @a, @b").add_param "b" true).add_param "a" false).params
        = assocLookup "b" ((Statement.new "SELECT @a, @b").add_param "b" true).params
    ∧ assocLookup "b"
        (((Statement.new "SELECT @a, @b").add_param "b" true).add_param "a" false).param_types
        = assocLookup "b" ((Statement.new "SELECT @a, @b").add_param "b" true).param_types :=
  ⟨by decide,
   add_param_frame Bool ((Statement.new "SELECT @a, @b").add_param "b" true)
     "a" false "b" (by decide)⟩

/-- Claim C2: every Statement reachable from Statement.new by a finite
sequence of add_param calls has equal key sets in params and param_types,
and every name bound along the way has exactly one entry in each map. -/
theorem statement_params_param_types_lockstep (sql : String)
    (ops : List (String × Kind × Ty)) :
    (∀ m, m ∈ (applyParams (Statement.new sql) ops).params.map Prod.fst
        ↔ m ∈ (applyParams (Statement.new sql) ops).param_types.map Prod.fst)
    ∧ ∀ n, n ∈ ops.map (fun e => e.1) →
        ((applyParams (Statement.new sql) ops).params.map Prod.fst).count n = 1
        ∧ ((applyParams (Statement.new sql) ops).param_types.map Prod.fst).count n = 1 := by
  have hinv := statementInv_applyParams ops (Statement.new sql) (statementInv_new sql)
  refine ⟨hinv.2.2, ?_⟩
  intro n hn
  refine count_keys_eq_one_of_inv _ hinv n ?_
  rw [mem_keys_applyParams_params n ops (Statement.new sql)]
  exact Or.inl hn

/-- Claim C2 witness: the lockstep property applied at one concrete
sequence of calls. -/
theorem statement_params_param_types_lockstep_witness :
    ("a" : String) ∈ [("a", Kind.boolValue true, single_type TypeCode.bool)].map
        (fun e => e.1)
    ∧ ((applyParams (Statement.new "SELECT @a")
          [("a", Kind.boolValue true, single_type TypeCode.bool)]).params.map Prod.fst).count "a" = 1
    ∧ ((applyParams (Statement.new "SELECT @a")
          [("a", Kind.boolValue true, single_type TypeCode.bool)]).param_types.map Prod.fst).count "a" = 1 :=
  ⟨by decide,
   (statement_params_param_types_lockstep "SELECT @a"
      [("a", Kind.boolValue true, single_type TypeCode.bool)]).2 "a" (by decide)⟩

/-- Claim C3: add_param is a total function, and rebinding an already
bound name on any reachable Statement leaves exactly one entry for it in
each map, holding only the second value and its type. -/
theorem add_param_total_overwrite (α β : Type) [ToKind α] [ToKind β]
    (sql n : String) (ops : List (String × Kind × Ty)) (v1 : α) (v2 : β) :
    assocLookup n (((applyParams (Statement.new sql) ops).add_param n v1).add_param n v2).params
      = some (some (ToKind.to_kind v2))
    ∧ assocLookup n (((applyParams (Statement.new sql) ops).add_param n v1).add_param n v2).param_types
      = some (@ToKind.get_type β _)
    ∧ ((((applyParams (Statement.new sql) ops).add_param n v1).add_param n v2).params.map Prod.fst).count n = 1
    ∧ ((((applyParams (Statement.new sql) ops).add_param n v1).add_param n v2).param_types.map Prod.fst).count n = 1 := by
  have hinv : StatementInv
      (((applyParams (Statement.new sql) ops).add_param n v1).add_param n v2) := by
    rw [add_param_eq_addParamKind, add_param_eq_addParamKind]
    exact statementInv_addParamKind _ _ _ _ (statementInv_addParamKind _ _ _ _
      (statementInv_applyParams ops _ (statementInv_new sql)))
  have hmem : n ∈ (((applyParams (Statement.new sql) ops).add_param n v1).add_param n v2).params.map Prod.fst := by
    simp only [Statement.add_param]
    rw [mem_keys_btreeInsert]
    exact Or.inl rfl
  have hc := count_keys_eq_one_of_inv _ hinv n hmem
  refine ⟨?_, ?_, hc.1, hc.2⟩
  · simp only [Statement.add_param]
    exact assocLookup_btreeInsert_self _ _ _
  · simp only [Statement.add_param]
    exact assocLookup_hashInsert_self _ _ _

/-- Claim C10: when to_kinds enumerates a field name twice, the struct
value keeps a single entry for it holding the last enumerated kind, while
the struct type keeps one field per get_types entry, so the value can have
strictly fewer fields than the type; the Dup shape realises this. -/
theorem struct_duplicate_field_names (ks : Kinds) (ts : Types) (n : String)
    (h : n ∈ ks.map Prod.fst) :
    assocLookup n (structFieldsOfKinds ks) = (lastBinding n ks).map some
    ∧ ((structFieldsOfKinds ks).map Prod.fst).count n = 1
    ∧ (tyFieldNames (structTypeOfTypes ts)).length = ts.length
    ∧ (kindFieldNames (ToKind.to_kind (⟨1, 2⟩ : Dup))).length
        < (tyFieldNames (@ToKind.get_type Dup _)).length
    ∧ assocLookup "a" (structFieldsOfKinds (ToStruct.to_kinds (⟨1, 2⟩ : Dup)))
        = some (some (Kind.stringValue "2")) := by
  have h2k : ToKind.to_kind (2 : Int) = Kind.stringValue "2" :=
    congrArg Kind.stringValue (by decide)
  have hfields : structFieldsOfKinds (ToStruct.to_kinds (⟨1, 2⟩ : Dup))
      = [("a", some (ToKind.to_kind (2 : Int)))] := by
    show structFieldsOfKinds
        [("a", ToKind.to_kind (1 : Int)), ("a", ToKind.to_kind (2 : Int))] = _
    simp [structFieldsOfKinds, btreeInsert, lt_irrefl]
  refine ⟨assocLookup_structFieldsOfKinds n ks, ?_, ?_, ?_, ?_⟩
  · exact List.count_eq_one_of_mem
      (nodup_of_pairwise_lt (pairwise_keys_structFieldsOfKinds ks))
      ((mem_keys_structFieldsOfKinds n ks).mpr h)
  · simp [tyFieldNames, structTypeOfTypes]
  · show (kindFieldNames
        (Kind.structValue (structFieldsOfKinds (ToStruct.to_kinds (⟨1, 2⟩ : Dup))))).length
      < (tyFieldNames (structTypeOfTypes
          [("a", @ToKind.get_type Int _), ("a", @ToKind.get_type Int _)])).length
    rw [hfields]
    simp [kindFieldNames, tyFieldNames, structTypeOfTypes]
  · rw [hfields, h2k]
    simp [assocLookup]

/-- Claim C10 witness: the duplicated-name facts applied at the Dup
shape. -/
theorem struct_duplicate_field_names_witness :
    ("a" : String) ∈ (ToStruct.to_kinds (⟨1, 2⟩ : Dup)).map Prod.fst
    ∧ ((structFieldsOfKinds (ToStruct.to_kinds (⟨1, 2⟩ : Dup))).map Prod.fst).count "a" = 1 :=
  ⟨by decide,
   (struct_duplicate_field_names (ToStruct.to_kinds (⟨1, 2⟩ : Dup))
      (@ToStruct.get_types Dup _) "a" (by decide)).2.1⟩

/-- Claim C1 counterexample: PairBA declares its fields in the order b
then a; its struct value stores fields sorted by name while its struct
type keeps declared order, so the two field-name sequences differ. -/
theorem struct_field_order_mismatch :
    kindFieldNames (ToKind.to_kind (⟨true, false⟩ : PairBA)) = ["a", "b"]
    ∧ tyFieldNames (@ToKind.get_type PairBA _) = ["b", "a"]
    ∧ kindFieldNames (ToKind.to_kind (⟨true, false⟩ : PairBA))
        ≠ tyFieldNames (@ToKind.get_type PairBA _) := by
  have hab : ("a" : String) < "b" := by
    rw [String.lt_iff_toList_lt]
    decide
  have hnames : kindFieldNames (ToKind.to_kind (⟨true, false⟩ : PairBA)) = ["a", "b"] := by
    show (structFieldsOfKinds
        [("b", Kind.boolValue true), ("a", Kind.boolValue false)]).map Prod.fst = ["a", "b"]
    simp [structFieldsOfKinds, btreeInsert, hab]
  have htys : tyFieldNames (@ToKind.get_type PairBA _) = ["b", "a"] := by
    show tyFieldNames (structTypeOfTypes
        [("b", single_type TypeCode.bool), ("a", single_type TypeCode.bool)]) = ["b", "a"]
    simp [tyFieldNames, structTypeOfTypes]
  refine ⟨hnames, htys, ?_⟩
  rw [hnames, htys]
  decide

/-- Claim C1 amended: provided the two enumerations agree on names and the
declared names are strictly sorted, the field-name sequence of the struct
value equals that of the struct type; without sortedness the value names
are the sorted deduplication of the declared names and the sequences can
differ. -/
theorem struct_field_order_match_of_sorted (γ : Type) [ToStruct γ] (x : γ)
    (hnames : (ToStruct.to_kinds x).map Prod.fst
        = (@ToStruct.get_types γ _).map Prod.fst)
    (hsorted : ((ToStruct.to_kinds x).map Prod.fst).Pairwise (· < ·)) :
    kindFieldNames (ToKind.to_kind x) = tyFieldNames (@ToKind.get_type γ _) := by
  have h1 : kindFieldNames (ToKind.to_kind x)
      = (structFieldsOfKinds (ToStruct.to_kinds x)).map Prod.fst := rfl
  have h2 : tyFieldNames (@ToKind.get_type γ _)
      = (@ToStruct.get_types γ _).map Prod.fst := by
    show tyFieldNames (structTypeOfTypes _) = _
    simp [tyFieldNames, structTypeOfTypes]
  rw [h1, h2, structFieldsOfKinds_of_sorted _ hsorted, ← hnames]
  simp

/-- Claim C1 amended witness: the sorted shape PairXY with declared fields
x then y satisfies the hypotheses and the matching conclusion. -/
theorem struct_field_order_match_of_sorted_witness :
    (ToStruct.to_kinds (⟨1, "z"⟩ : PairXY)).map Prod.fst
        = (@ToStruct.get_types PairXY _).map Prod.fst
    ∧ ((ToStruct.to_kinds (⟨1, "z"⟩ : PairXY)).map Prod.fst).Pairwise (· < ·)
    ∧ kindFieldNames (ToKind.to_kind (⟨1, "z"⟩ : PairXY))
        = tyFieldNames (@ToKind.get_type PairXY _) :=
  ⟨by decide,
   by simp [List.pairwise_cons]; decide,
   struct_field_order_match_of_sorted PairXY (⟨1, "z"⟩ : PairXY)
     (by decide) (by simp [List.pairwise_cons]; decide)⟩

end Spanner
